import Mathlib

/-!
Shallow embedding of the hand-state derivation engine of the NLH hand
recorder (pot calculator, active-player resolver, implicit-fold inference,
street-completion detector, action labeler, bet-sizing resolver,
position/order tables, and the editor's order-key assignment).

Numbers: JavaScript `number` values carrying chip amounts / bet sizes are
modelled as exact rationals (`ℚ`); the `order` key and the table size as
integers (`ℤ`).  The per-seat bet record (a JS object keyed by position,
where a key that was never written is simply absent) is modelled as a
structure with one field per seat defaulting to 0: since the source always
passes an explicit extra `0` to `Math.max` and sums with initial value 0,
absent keys and 0-valued fields are interchangeable.  All definitions are
computable and mirror the TypeScript source.
-/

namespace HandRecord

/-- Seat labels (src/types/index.ts `Position`).  `UTG1` stands for the
source's `'UTG+1'`. -/
inductive Position where
  | UTG | UTG1 | LJ | HJ | CO | BTN | SB | BB
deriving DecidableEq, Repr

/-- Betting rounds (src/types/index.ts `Street`). -/
inductive Street where
  | preflop | flop | turn | river
deriving DecidableEq, Repr

/-- Stored action kinds (src/types/index.ts `ActionType`). -/
inductive ActionType where
  | FOLD | CHECK | CALL | BET | RAISE | ALLIN
deriving DecidableEq, Repr

/-- One recorded betting event (src/types/index.ts `Action`).  The opaque
string `id` carries no logic and is omitted; removal by unique id is
modelled as removal at a list index. -/
structure Action where
  order : ℤ
  street : Street
  position : Position
  type : ActionType
  sizeBb : Option ℚ := none
deriving DecidableEq, Repr

/-- `PREFLOP_ACTION_ORDER` (src/types/index.ts): partial map from table
size to the preflop action order; `none` models a missing record key. -/
def PREFLOP_ACTION_ORDER (t : ℤ) : Option (List Position) :=
  if t = 2 then some [.BTN, .BB]
  else if t = 3 then some [.BTN, .SB, .BB]
  else if t = 4 then some [.UTG, .BTN, .SB, .BB]
  else if t = 5 then some [.UTG, .CO, .BTN, .SB, .BB]
  else if t = 6 then some [.UTG, .HJ, .CO, .BTN, .SB, .BB]
  else if t = 7 then some [.UTG, .LJ, .HJ, .CO, .BTN, .SB, .BB]
  else if t = 8 then some [.UTG, .UTG1, .LJ, .HJ, .CO, .BTN, .SB, .BB]
  else if t = 9 then some [.UTG, .UTG1, .LJ, .HJ, .CO, .BTN, .SB, .BB]
  else none

/-- `POSTFLOP_ACTION_ORDER` (src/types/index.ts). -/
def POSTFLOP_ACTION_ORDER (t : ℤ) : Option (List Position) :=
  if t = 2 then some [.BB, .BTN]
  else if t = 3 then some [.SB, .BB, .BTN]
  else if t = 4 then some [.SB, .BB, .UTG, .BTN]
  else if t = 5 then some [.SB, .BB, .UTG, .CO, .BTN]
  else if t = 6 then some [.SB, .BB, .UTG, .HJ, .CO, .BTN]
  else if t = 7 then some [.SB, .BB, .UTG, .LJ, .HJ, .CO, .BTN]
  else if t = 8 then some [.SB, .BB, .UTG, .UTG1, .LJ, .HJ, .CO, .BTN]
  else if t = 9 then some [.SB, .BB, .UTG, .UTG1, .LJ, .HJ, .CO, .BTN]
  else none

/-- `POSITIONS_BY_TABLE_SIZE` (src/types/index.ts). -/
def POSITIONS_BY_TABLE_SIZE (t : ℤ) : Option (List Position) :=
  if t = 2 then some [.BTN, .BB]
  else if t = 3 then some [.BTN, .SB, .BB]
  else if t = 4 then some [.UTG, .BTN, .SB, .BB]
  else if t = 5 then some [.UTG, .CO, .BTN, .SB, .BB]
  else if t = 6 then some [.UTG, .HJ, .CO, .BTN, .SB, .BB]
  else if t = 7 then some [.UTG, .LJ, .HJ, .CO, .BTN, .SB, .BB]
  else if t = 8 then some [.UTG, .UTG1, .LJ, .HJ, .CO, .BTN, .SB, .BB]
  else if t = 9 then some [.UTG, .UTG1, .LJ, .HJ, .CO, .BTN, .SB, .BB]
  else none

/-- ActionInput.tsx `preflopOrder`: `PREFLOP_ACTION_ORDER[tableSize] || []`
(a missing key falls back to the empty list). -/
def preflopOrderOf (t : ℤ) : List Position :=
  (PREFLOP_ACTION_ORDER t).getD []

/-- ActionInput.tsx `postflopOrder`: `POSTFLOP_ACTION_ORDER[tableSize] || []`. -/
def postflopOrderOf (t : ℤ) : List Position :=
  (POSTFLOP_ACTION_ORDER t).getD []

/-- Home.tsx `handleNewHand`:
`POSITIONS_BY_TABLE_SIZE[settings.lastTableSize] || POSITIONS_BY_TABLE_SIZE[6]`
(a missing key falls back to the 6-max configuration; a present array, even
an empty one, would be truthy and kept). -/
def newHandPositions (t : ℤ) : List Position :=
  (POSITIONS_BY_TABLE_SIZE t).getD ((POSITIONS_BY_TABLE_SIZE 6).getD [])

/-- Blind levels (src/types/index.ts `BlindLevel`): `'0.5/1' | '1/1' | '1/2'`. -/
inductive BlindLevel where
  | b05_1 | b1_1 | b1_2
deriving DecidableEq, Repr

/-- ActionInput.tsx `getBBSize`. -/
def getBBSize : BlindLevel → ℚ
  | .b05_1 => 1
  | .b1_1 => 1
  | .b1_2 => 2

/-- ActionInput.tsx `getSBSize`. -/
def getSBSize : BlindLevel → ℚ
  | .b05_1 => 1/2
  | .b1_1 => 1
  | .b1_2 => 1

/-- The per-seat "current bet" record of ActionInput.tsx `potSize`
(`const bets: Record<string, number> = \x7b\x7d`); a field default of 0
plays the role of an absent key. -/
structure Bets where
  utg : ℚ := 0
  utg1 : ℚ := 0
  lj : ℚ := 0
  hj : ℚ := 0
  co : ℚ := 0
  btn : ℚ := 0
  sb : ℚ := 0
  bb : ℚ := 0
deriving Repr

/-- Read one seat's entry of the bet record. -/
def Bets.get (b : Bets) : Position → ℚ
  | .UTG => b.utg
  | .UTG1 => b.utg1
  | .LJ => b.lj
  | .HJ => b.hj
  | .CO => b.co
  | .BTN => b.btn
  | .SB => b.sb
  | .BB => b.bb

/-- `bets[pos] = v`. -/
def Bets.set (b : Bets) : Position → ℚ → Bets
  | .UTG, v => { b with utg := v }
  | .UTG1, v => { b with utg1 := v }
  | .LJ, v => { b with lj := v }
  | .HJ, v => { b with hj := v }
  | .CO, v => { b with co := v }
  | .BTN, v => { b with btn := v }
  | .SB, v => { b with sb := v }
  | .BB, v => { b with bb := v }

/-- Binary maximum written with an explicit comparison so that concrete
rational instances evaluate. -/
def qmax (a b : ℚ) : ℚ := if a ≤ b then b else a

/-- `Math.max(...Object.values(bets), 0)`. -/
def maxBet (b : Bets) : ℚ :=
  qmax b.utg (qmax b.utg1 (qmax b.lj (qmax b.hj (qmax b.co
    (qmax b.btn (qmax b.sb (qmax b.bb 0)))))))

/-- `Object.values(bets).reduce((sum, x) => sum + x, 0)`. -/
def sumBets (b : Bets) : ℚ :=
  b.utg + b.utg1 + b.lj + b.hj + b.co + b.btn + b.sb + b.bb

/-- One iteration of the per-street action loop inside ActionInput.tsx
`potSize`: a sized raise overwrites the seat's total (`-1` becomes the
fixed 100 BB all-in placeholder), a call overwrites with the current
maximum of the record, every other action leaves the record unchanged. -/
def applyPotAction (bets : Bets) (a : Action) : Bets :=
  match a.type with
  | .RAISE =>
    match a.sizeBb with
    | some s => bets.set a.position (if s = -1 then 100 else s)
    | none => bets
  | .CALL => bets.set a.position (maxBet bets)
  | _ => bets

/-- The canonical street order
(`const streets = ['preflop','flop','turn','river']`). -/
def streetsOrder : List Street := [.preflop, .flop, .turn, .river]

/-- `streets.indexOf(street)`. -/
def streetIdx : Street → ℕ
  | .preflop => 0
  | .flop => 1
  | .turn => 2
  | .river => 3

/-- ActionInput.tsx `potSize`: the pot entering `currentStreet`.  The pot
is seeded with the forced blinds (SB only when `tableSize >= 3`), the
per-seat bet record is seeded with the same blinds, and each fully elapsed
street's actions update the record, which is then summed into the pot and
reset to zero. -/
def potSize (actions : List Action) (currentStreet : Street) (tableSize : ℤ)
    (blind : BlindLevel) : ℚ :=
  let bbSize := getBBSize blind
  let sbSize := getSBSize blind
  let hasSB : Bool := decide (tableSize ≥ 3)
  let pot0 : ℚ := (if hasSB then sbSize / bbSize else 0) + 1
  let bets0 : Bets := { sb := if hasSB then sbSize / bbSize else 0, bb := 1 }
  let step : ℚ × Bets → Street → ℚ × Bets := fun acc st =>
    let bets := (actions.filter (fun a => decide (a.street = st))).foldl applyPotAction acc.2
    (acc.1 + sumBets bets, {})
  ((streetsOrder.take (streetIdx currentStreet)).foldl step (pot0, bets0)).1

/-- `actions.filter((a) => a.street === 'preflop')`. -/
def preflopActionsOf (actions : List Action) : List Action :=
  actions.filter (fun a => decide (a.street = Street.preflop))

/-- `list.reduce((latest, current) => current.order > latest.order ? current : latest)`:
the element with the greatest `order` (ties keep the earlier element). -/
def lastByOrder (a : Action) (as : List Action) : Action :=
  as.foldl (fun latest current => if current.order > latest.order then current else latest) a

/-- `list.reduce((earliest, current) => current.order < earliest.order ? current : earliest)`:
the element with the smallest `order` (ties keep the earlier element). -/
def firstByOrder (a : Action) (as : List Action) : Action :=
  as.foldl (fun earliest current => if current.order < earliest.order then current else earliest) a

/-- `if (!list.includes(p)) list.push(p)`. -/
def addIfNew (l : List Position) (p : Position) : List Position :=
  if p ∈ l then l else l ++ [p]

/-- ActionInput.tsx `playersInHand`: with no preflop raise the full
postflop order; otherwise the last raiser, the seats that called (or
all-in re-raised) after the last raise, and every all-in seat, filtered
through the postflop order. -/
def playersInHand (actions : List Action) (tableSize : ℤ) : List Position :=
  let preflopActions := preflopActionsOf actions
  let raises := preflopActions.filter (fun a => decide (a.type = ActionType.RAISE))
  match raises with
  | [] => postflopOrderOf tableSize
  | r :: rs =>
    let lastRaise := lastByOrder r rs
    let inHand1 := preflopActions.foldl (fun l a =>
      if decide (a.order > lastRaise.order) &&
          (decide (a.type = ActionType.CALL) ||
            (decide (a.type = ActionType.RAISE) && decide (a.sizeBb = some (-1)))) then
        addIfNew l a.position
      else l) [lastRaise.position]
    let inHand := preflopActions.foldl (fun l a =>
      if decide (a.sizeBb = some (-1)) then addIfNew l a.position else l) inHand1
    (postflopOrderOf tableSize).filter (fun p => decide (p ∈ inHand))

/-- Claim C2's description of the resolver, written from the spec's words:
the seat of the last raise, every seat with a call strictly after it, and
every seat with the all-in sentinel anywhere preflop, in postflop order. -/
def playersInHandClaim (actions : List Action) (tableSize : ℤ) : List Position :=
  let preflopActions := preflopActionsOf actions
  let raises := preflopActions.filter (fun a => decide (a.type = ActionType.RAISE))
  match raises with
  | [] => postflopOrderOf tableSize
  | r :: rs =>
    let lastRaise := lastByOrder r rs
    (postflopOrderOf tableSize).filter (fun p =>
      decide (p = lastRaise.position) ||
      preflopActions.any (fun a =>
        decide (a.type = ActionType.CALL) && decide (a.order > lastRaise.order) &&
        decide (a.position = p)) ||
      preflopActions.any (fun a =>
        decide (a.sizeBb = some (-1)) && decide (a.position = p)))

/-- ActionInput.tsx `explicitlyFoldedPositions`. -/
def explicitlyFoldedPositions (actions : List Action) : List Position :=
  (actions.filter (fun a => decide (a.type = ActionType.FOLD))).map (·.position)

/-- ActionInput.tsx `implicitlyFoldedPositions`: empty unless the current
street is preflop; otherwise the seats placed before the earliest raiser in
the preflop order that recorded no *preflop* action.  A raiser seat missing
from the order table behaves like JS `indexOf === -1`: the loop body never
runs. -/
def implicitlyFoldedPositions (actions : List Action) (tableSize : ℤ)
    (currentStreet : Street) : List Position :=
  if currentStreet = Street.preflop then
    let preflopActions := preflopActionsOf actions
    match preflopActions.filter (fun a => decide (a.type = ActionType.RAISE)) with
    | [] => []
    | r :: rs =>
      let firstRaise := firstByOrder r rs
      let idx := match (preflopOrderOf tableSize).findIdx?
          (fun p => decide (p = firstRaise.position)) with
        | some i => i
        | none => 0
      ((preflopOrderOf tableSize).take idx).filter
        (fun p => !(preflopActions.any (fun a => decide (a.position = p))))
  else []

/-- Claim C5's description of the inference, written from the spec's words:
seats before the opener with no recorded action of any kind on any street
(the whole action list is consulted, not just the preflop portion). -/
def implicitFoldsClaim (actions : List Action) (tableSize : ℤ) : List Position :=
  let preflopActions := preflopActionsOf actions
  match preflopActions.filter (fun a => decide (a.type = ActionType.RAISE)) with
  | [] => []
  | r :: rs =>
    let firstRaise := firstByOrder r rs
    let idx := match (preflopOrderOf tableSize).findIdx?
        (fun p => decide (p = firstRaise.position)) with
      | some i => i
      | none => 0
    ((preflopOrderOf tableSize).take idx).filter
      (fun p => !(actions.any (fun a => decide (a.position = p))))

/-- `[...new Set(list)]`: JS set insertion keeps first occurrences. -/
def dedupKeepFirst (l : List Position) : List Position :=
  l.foldl addIfNew []

/-- ActionInput.tsx `allFoldedPositions`. -/
def allFoldedPositions (actions : List Action) (tableSize : ℤ)
    (currentStreet : Street) : List Position :=
  dedupKeepFirst
    (explicitlyFoldedPositions actions ++
      implicitlyFoldedPositions actions tableSize currentStreet)

/-- ActionInput.tsx `availablePositions`. -/
def availablePositions (actions : List Action) (tableSize : ℤ)
    (currentStreet : Street) : List Position :=
  if currentStreet = Street.preflop then
    (preflopOrderOf tableSize).filter
      (fun p => !(decide (p ∈ allFoldedPositions actions tableSize currentStreet)))
  else
    (playersInHand actions tableSize).filter
      (fun p => !(decide (p ∈ explicitlyFoldedPositions actions)))

/-- `[...streetRaises].sort((a, b) => a.order - b.order)`: a stable sort by
`order`. -/
def sortByOrder (l : List Action) : List Action :=
  l.insertionSort (fun a b => a.order ≤ b.order)

/-- `sortedRaises[sortedRaises.length - 2].position`: the seat of the
second-to-last raise (JS reads the array directly; a list shorter than two
would read `undefined`, modelled by `none`). -/
def secondLastRaiserPos (streetRaises : List Action) : Option Position :=
  let sorted := sortByOrder streetRaises
  (sorted.get? (sorted.length - 2)).map (·.position)

/-- ActionInput.tsx `isStreetComplete`. -/
def isStreetComplete (actions : List Action) (currentStreet : Street)
    (tableSize : ℤ) : Bool :=
  match actions.filter (fun a => decide (a.street = currentStreet)) with
  | [] => false
  | a :: as =>
    let streetRaises := (a :: as).filter (fun x => decide (x.type = ActionType.RAISE))
    let lastAction := lastByOrder a as
    if decide (lastAction.type = ActionType.RAISE) &&
        !(decide (lastAction.sizeBb = some (-1))) then
      false
    else if currentStreet = Street.preflop then
      match streetRaises with
      | [] => false
      | _ :: _ =>
        let callClosed : Bool :=
          if decide (lastAction.type = ActionType.CALL) then
            if streetRaises.length = 1 then
              decide (lastAction.position = Position.BB)
            else
              decide (some lastAction.position = secondLastRaiserPos streetRaises)
          else false
        let foldedInStreet :=
          ((a :: as).filter (fun x => decide (x.type = ActionType.FOLD))).map (·.position)
        let activePlayers := (preflopOrderOf tableSize).filter (fun p =>
          !(decide (p ∈ allFoldedPositions actions tableSize currentStreet)) &&
          !(decide (p ∈ foldedInStreet)))
        callClosed || decide (activePlayers.length = 1)
    else
      match streetRaises with
      | [] =>
        let checkCount :=
          ((a :: as).filter (fun x => decide (x.type = ActionType.CHECK))).length
        decide (checkCount ≥ (availablePositions actions tableSize currentStreet).length)
      | r :: rs =>
        let lastRaise := lastByOrder r rs
        let otherActivePlayers := (availablePositions actions tableSize currentStreet).filter
          (fun p => !(decide (p = lastRaise.position)))
        let playersActedAfterRaise :=
          ((a :: as).filter (fun x => decide (x.order > lastRaise.order))).map (·.position)
        let allOthersActed := otherActivePlayers.all (fun p =>
          decide (p ∈ playersActedAfterRaise) ||
          decide (p ∈ explicitlyFoldedPositions actions))
        let lastActionIsNotRaise :=
          !(decide (lastAction.type = ActionType.RAISE)) ||
          decide (lastAction.sizeBb = some (-1))
        allOthersActed && lastActionIsNotRaise

/-- Claim C3's closing conditions for a raised preflop street, written from
the spec's words: (a) a lone raise called by the BB, (b) a re-raise called
by the second-to-last raiser, or (c) folds leaving exactly one non-folded
seat.  The code's additional "last action is an open raise" guard (spec
section 4.4, second bullet) is deliberately absent here: the claim presents
(a)-(c) as the full characterisation. -/
def preflopCompleteClaim (actions : List Action) (tableSize : ℤ) : Bool :=
  match actions.filter (fun a => decide (a.street = Street.preflop)) with
  | [] => false
  | a :: as =>
    let streetRaises := (a :: as).filter (fun x => decide (x.type = ActionType.RAISE))
    let lastAction := lastByOrder a as
    match streetRaises with
    | [] => false
    | _ :: _ =>
      let condA := decide (streetRaises.length = 1) &&
        decide (lastAction.type = ActionType.CALL) &&
        decide (lastAction.position = Position.BB)
      let condB := decide (streetRaises.length ≥ 2) &&
        decide (lastAction.type = ActionType.CALL) &&
        decide (some lastAction.position = secondLastRaiserPos streetRaises)
      let foldedInStreet :=
        ((a :: as).filter (fun x => decide (x.type = ActionType.FOLD))).map (·.position)
      let condC := decide (((preflopOrderOf tableSize).filter (fun p =>
        !(decide (p ∈ allFoldedPositions actions tableSize Street.preflop)) &&
        !(decide (p ∈ foldedInStreet)))).length = 1)
      condA || condB || condC

/-- The guard the claim omits: the chronologically last preflop action is a
raise-kind action whose size is not the all-in sentinel. -/
def lastPreflopActionIsOpenRaise (actions : List Action) : Bool :=
  match actions.filter (fun a => decide (a.street = Street.preflop)) with
  | [] => false
  | a :: as =>
    let lastAction := lastByOrder a as
    decide (lastAction.type = ActionType.RAISE) &&
      !(decide (lastAction.sizeBb = some (-1)))

/-- Claim C4's postflop completion conditions, written from the spec's
words: with no raise, every active seat has checked (count of checks at
least the active-seat count); with a raise, every active seat other than
the last raiser acted strictly after the last raise (or explicitly folded)
and the last action is not a raise-kind action with a determinate size. -/
def postflopCompleteClaim (actions : List Action) (st : Street) (tableSize : ℤ) : Bool :=
  match actions.filter (fun a => decide (a.street = st)) with
  | [] => false
  | a :: as =>
    let streetRaises := (a :: as).filter (fun x => decide (x.type = ActionType.RAISE))
    let lastAction := lastByOrder a as
    match streetRaises with
    | [] =>
      decide ((((a :: as).filter (fun x => decide (x.type = ActionType.CHECK))).length) ≥
        (availablePositions actions tableSize st).length)
    | r :: rs =>
      let lastRaise := lastByOrder r rs
      let allOthersActed := ((availablePositions actions tableSize st).filter
          (fun p => !(decide (p = lastRaise.position)))).all (fun p =>
        decide (p ∈ ((a :: as).filter
          (fun x => decide (x.order > lastRaise.order))).map (·.position)) ||
        decide (p ∈ explicitlyFoldedPositions actions))
      allOthersActed &&
        (!(decide (lastAction.type = ActionType.RAISE)) ||
          decide (lastAction.sizeBb = some (-1)))

/-- `action.type.toLowerCase()` over the six stored kinds. -/
def actionTypeLower : ActionType → String
  | .FOLD => "fold"
  | .CHECK => "check"
  | .CALL => "call"
  | .BET => "bet"
  | .RAISE => "raise"
  | .ALLIN => "allin"

/-- utils/clipboard.ts `getRaiseLabel`: counts same-street raise-kind
actions with `order <=` the action's own order (the action counts itself
when it belongs to the list). -/
def getRaiseLabel (action : Action) (allActions : List Action) : String :=
  match action.type with
  | .RAISE =>
    let streetActions := allActions.filter (fun a =>
      decide (a.street = action.street) && decide (a.order ≤ action.order))
    let raiseCount :=
      (streetActions.filter (fun a => decide (a.type = ActionType.RAISE))).length
    match action.street with
    | .preflop =>
      match raiseCount with
      | 1 => "open"
      | 2 => "3bet"
      | 3 => "4bet"
      | 4 => "5bet"
      | n => toString (n + 1) ++ "bet"
    | _ => if raiseCount = 1 then "bet" else "raise"
  | t => actionTypeLower t

/-- ActionInput.tsx `getActionDisplayLabel`: counts same-street raise-kind
actions with `order <` the action's own order. -/
def getActionDisplayLabel (action : Action) (actions : List Action) : String :=
  match action.type with
  | .RAISE =>
    let priorRaises := (actions.filter (fun a =>
      decide (a.street = action.street) && decide (a.type = ActionType.RAISE) &&
      decide (a.order < action.order))).length
    match action.street with
    | .preflop =>
      match priorRaises with
      | 0 => "open"
      | 1 => "3bet"
      | 2 => "4bet"
      | n => toString (n + 2) ++ "bet"
    | _ => if priorRaises = 0 then "bet" else "raise"
  | t => actionTypeLower t

/-- Claim C6's n-indexed label mapping (n = count of same-street raise-kind
actions with order at most the action's own): preflop 1/2/3/4 map to
open/3bet/4bet/5bet and n otherwise to "(n+1)bet"; postflop 1 maps to
"bet" and anything larger to "raise". -/
def claimRaiseLabelMap (st : Street) (n : ℕ) : String :=
  match st with
  | .preflop =>
    if n = 1 then "open"
    else if n = 2 then "3bet"
    else if n = 3 then "4bet"
    else if n = 4 then "5bet"
    else toString (n + 1) ++ "bet"
  | _ => if n = 1 then "bet" else "raise"

/-- The count the claim indexes labels by. -/
def sameStreetRaisesUpTo (action : Action) (allActions : List Action) : ℕ :=
  (allActions.filter (fun a =>
    decide (a.street = action.street) && decide (a.order ≤ action.order) &&
    decide (a.type = ActionType.RAISE))).length

/-- JS `Math.round`: round to nearest, half toward positive infinity. -/
def jsRound (x : ℚ) : ℤ := ⌊x + 1/2⌋

/-- ActionInput.tsx `handlePotRatioSelect`: the recorded chip amount
`Math.round(potSize * ratio)`. -/
def potRatioSizeBb (pot r : ℚ) : ℤ := jsRound (pot * r)

/-- Editor mutations that touch the action list: appending a new action
(handleTypeSelect / handleSizeSelect / handlePotRatioSelect all assign
`order: actions.length`) and removing one recorded action (HandEditor's
remove-by-id, modelled as removal at an index since ids are unique). -/
inductive EditorOp where
  | append (st : Street) (p : Position) (ty : ActionType) (sizeBb : Option ℚ)
  | removeAt (i : ℕ)

/-- Apply one editor mutation. -/
def applyEditorOp (actions : List Action) : EditorOp → List Action
  | .append st p ty s => actions ++ [⟨(actions.length : ℤ), st, p, ty, s⟩]
  | .removeAt i => actions.eraseIdx i

/-- Run a sequence of editor mutations from the empty hand. -/
def runEditorOps (ops : List EditorOp) : List Action :=
  ops.foldl applyEditorOp []

/-- Whether an editor mutation is an append. -/
def EditorOp.isAppend : EditorOp → Bool
  | .append _ _ _ _ => true
  | .removeAt _ => false

/-- Claim C5 amended: the implicit folds are the seats before the opener
with no recorded *preflop* action (the code never consults other streets). -/
def implicitFoldsAmendedClaim (actions : List Action) (tableSize : ℤ) : List Position :=
  let preflopActions := preflopActionsOf actions
  match preflopActions.filter (fun a => decide (a.type = ActionType.RAISE)) with
  | [] => []
  | r :: rs =>
    let firstRaise := firstByOrder r rs
    let idx := match (preflopOrderOf tableSize).findIdx?
        (fun p => decide (p = firstRaise.position)) with
      | some i => i
      | none => 0
    ((preflopOrderOf tableSize).take idx).filter
      (fun p => !(preflopActions.any (fun a => decide (a.position = p))))

/-- The 6-max hand of the spec's testable property 2: blinds 0.5/1,
preflop `[UTG raise 2.5, HJ fold, CO fold, BTN fold, SB fold, BB call]`. -/
def exPotActions : List Action :=
  [ ⟨0, .preflop, .UTG, .RAISE, some (5/2)⟩,
    ⟨1, .preflop, .HJ, .FOLD, none⟩,
    ⟨2, .preflop, .CO, .FOLD, none⟩,
    ⟨3, .preflop, .BTN, .FOLD, none⟩,
    ⟨4, .preflop, .SB, .FOLD, none⟩,
    ⟨5, .preflop, .BB, .CALL, none⟩ ]

/-- The spec's testable property 3: 6-max preflop
`[BTN raise 3, SB fold, BB call]`. -/
def exResolver : List Action :=
  [ ⟨0, .preflop, .BTN, .RAISE, some 3⟩,
    ⟨1, .preflop, .SB, .FOLD, none⟩,
    ⟨2, .preflop, .BB, .CALL, none⟩ ]

/-- A recordable heads-up preflop sequence in which the BB folds first and
the BTN then raises: only one non-folded seat remains while the last action
is an open raise. -/
def exHeadsUpFoldThenRaise : List Action :=
  [ ⟨0, .preflop, .BB, .FOLD, none⟩,
    ⟨1, .preflop, .BTN, .RAISE, some 3⟩ ]

/-- Single raise, folds around, BB closes by calling (spec's testable
property 4, first half). -/
def exSingleRaiseBBCall : List Action :=
  [ ⟨0, .preflop, .UTG, .RAISE, some 3⟩,
    ⟨1, .preflop, .HJ, .FOLD, none⟩,
    ⟨2, .preflop, .CO, .FOLD, none⟩,
    ⟨3, .preflop, .BTN, .FOLD, none⟩,
    ⟨4, .preflop, .SB, .FOLD, none⟩,
    ⟨5, .preflop, .BB, .CALL, none⟩ ]

/-- Single raise answered by a BB 3bet (spec's testable property 4, second
half). -/
def exSingleRaiseBB3bet : List Action :=
  [ ⟨0, .preflop, .UTG, .RAISE, some 3⟩,
    ⟨1, .preflop, .BB, .RAISE, some 9⟩ ]

/-- A hand with a preflop raise on record and a flop action by a seat that
never acted preflop: the code still deems that seat implicitly folded. -/
def exImplicitFoldCross : List Action :=
  [ ⟨0, .preflop, .CO, .RAISE, some 3⟩,
    ⟨1, .flop, .UTG, .CHECK, none⟩ ]

/-- The spec's testable property 8: 6-max preflop `[CO raise 3, BTN call]`. -/
def exImplicitFold : List Action :=
  [ ⟨0, .preflop, .CO, .RAISE, some 3⟩,
    ⟨1, .preflop, .BTN, .CALL, none⟩ ]

/-- A purely append-only editor history. -/
def exAppendOnlyOps : List EditorOp :=
  [ .append .preflop .UTG .RAISE (some 3),
    .append .preflop .HJ .FOLD none,
    .append .preflop .BB .CALL none ]

/-- Editor history: append two preflop raises, delete the first, append a
third raise.  The last append receives `order = 1`, duplicating the
surviving action's order. -/
def exEditorOps : List EditorOp :=
  [ .append .preflop .UTG .RAISE (some 3),
    .append .preflop .HJ .RAISE (some 9),
    .removeAt 0,
    .append .preflop .CO .RAISE (some 12) ]

/-- The action list produced by `exEditorOps`: two same-street raise-kind
actions sharing `order = 1`. -/
def exDupOrders : List Action := runEditorOps exEditorOps

/-- Three sequential preflop raises with intervening actions recorded on
other streets (spec's testable property 5). -/
def exThreeRaises : List Action :=
  [ ⟨0, .preflop, .UTG, .RAISE, some 3⟩,
    ⟨1, .flop, .SB, .CHECK, none⟩,
    ⟨2, .preflop, .CO, .RAISE, some 9⟩,
    ⟨3, .turn, .SB, .FOLD, none⟩,
    ⟨4, .preflop, .UTG, .RAISE, some 21⟩ ]

/-- Flop checked around by both remaining seats after a raised preflop. -/
def exFlopChecks : List Action :=
  [ ⟨0, .preflop, .BTN, .RAISE, some 3⟩,
    ⟨1, .preflop, .SB, .FOLD, none⟩,
    ⟨2, .preflop, .BB, .CALL, none⟩,
    ⟨3, .flop, .BB, .CHECK, none⟩,
    ⟨4, .flop, .BTN, .CHECK, none⟩ ]

/-- C1: the claim states that the pot entering a street equals the sum,
over the elapsed streets, of the per-seat contribution map seeded (preflop
only) with the blinds, and that the 6-max example hand carries exactly
5.5 BB into the flop.  The code additionally seeds the pot itself with the
same blinds before the street loop, so the example evaluates to
1.5 + (0.5 + 2.5 + 2.5) = 7 BB: the folded SB's forced 0.5 (and the BB's
1 whenever the BB never calls or raises) is counted twice. -/
theorem potSize_double_counts_blinds :
    potSize exPotActions Street.flop 6 BlindLevel.b05_1 = 7 ∧ (7 : ℚ) ≠ 11/2 := by
  refine ⟨?_, by norm_num⟩
  norm_num [potSize, exPotActions, applyPotAction, sumBets, maxBet, qmax,
    Bets.set, streetsOrder, streetIdx, getSBSize, getBBSize]

theorem bool_eq_of_iff {x y : Bool} (h : x = true ↔ y = true) : x = y := by
  cases x <;> cases y <;> simp_all

theorem mem_addIfNew {l : List Position} {p q : Position} :
    p ∈ addIfNew l q ↔ p ∈ l ∨ p = q := by
  unfold addIfNew
  by_cases hq : q ∈ l
  · rw [if_pos hq]
    constructor
    · exact Or.inl
    · rintro (h | rfl)
      · exact h
      · exact hq
  · rw [if_neg hq]
    simp

theorem mem_foldl_addIf (f : Action → Bool) (as : List Action) (l0 : List Position)
    (p : Position) :
    p ∈ as.foldl (fun l a => if f a then addIfNew l a.position else l) l0 ↔
      p ∈ l0 ∨ ∃ a ∈ as, f a = true ∧ a.position = p := by
  induction as generalizing l0 with
  | nil => simp
  | cons a as ih =>
    simp only [List.foldl_cons]
    by_cases hf : f a
    · rw [if_pos hf, ih, mem_addIfNew]
      simp only [List.exists_mem_cons_iff, hf]
      tauto
    · rw [if_neg hf, ih]
      simp only [List.exists_mem_cons_iff]
      constructor
      · tauto
      · rintro (h | ⟨hfa, _⟩ | h)
        · exact Or.inl h
        · exact absurd hfa hf
        · exact Or.inr h

/-- C2: the active-player resolver returns the full postflop order when no
preflop raise exists, and otherwise exactly the last raiser, the callers
after the last raise and the all-in seats, filtered through the canonical
postflop order; the spec's 6-max example yields `[BB, BTN]`. -/
theorem playersInHand_matches_claim :
    (∀ (actions : List Action) (tableSize : ℤ),
      playersInHand actions tableSize = playersInHandClaim actions tableSize) ∧
    playersInHand exResolver 6 = [Position.BB, Position.BTN] := by
  refine ⟨?_, by decide⟩
  intro actions t
  cases hr : (preflopActionsOf actions).filter (fun a => decide (a.type = ActionType.RAISE)) with
  | nil => simp only [playersInHand, playersInHandClaim, hr]
  | cons r rs =>
    simp only [playersInHand, playersInHandClaim, hr]
    apply List.filter_congr
    intro p _
    apply bool_eq_of_iff
    rw [decide_eq_true_eq, mem_foldl_addIf, mem_foldl_addIf]
    simp only [List.mem_singleton, Bool.and_eq_true, Bool.or_eq_true, decide_eq_true_eq,
      List.any_eq_true]
    constructor
    · rintro ((rfl | ⟨a, ha, ⟨hord, hcall | ⟨hty, hsz⟩⟩, hpos⟩) | ⟨a, ha, hsz, hpos⟩)
      · exact Or.inl (Or.inl rfl)
      · exact Or.inl (Or.inr ⟨a, ha, ⟨hcall, hord⟩, hpos⟩)
      · exact Or.inr ⟨a, ha, hsz, hpos⟩
      · exact Or.inr ⟨a, ha, hsz, hpos⟩
    · rintro ((rfl | ⟨a, ha, ⟨hcall, hord⟩, hpos⟩) | ⟨a, ha, hsz, hpos⟩)
      · exact Or.inl (Or.inl rfl)
      · exact Or.inl (Or.inr ⟨a, ha, ⟨hord, Or.inl hcall⟩, hpos⟩)
      · exact Or.inr ⟨a, ha, hsz, hpos⟩

theorem foldl_choice_mem (f : Action → Action → Action)
    (hf : ∀ x y, f x y = x ∨ f x y = y) (as : List Action) (a : Action) :
    as.foldl f a ∈ a :: as := by
  induction as generalizing a with
  | nil => simp
  | cons b bs ih =>
    simp only [List.foldl_cons]
    rcases (List.mem_cons).mp (ih (f a b)) with h | h
    · rcases hf a b with hab | hab
      · rw [h, hab]; exact List.mem_cons_self _ _
      · rw [h, hab]; exact List.mem_cons_of_mem _ (List.mem_cons_self _ _)
    · exact List.mem_cons_of_mem _ (List.mem_cons_of_mem _ h)

theorem lastByOrder_mem (a : Action) (as : List Action) : lastByOrder a as ∈ a :: as := by
  unfold lastByOrder
  apply foldl_choice_mem
  intro x y
  by_cases h : y.order > x.order
  · rw [if_pos h]; exact Or.inr rfl
  · rw [if_neg h]; exact Or.inl rfl

theorem lastByOrder_not_raise (a : Action) (as : List Action)
    (h : (a :: as).filter (fun x => decide (x.type = ActionType.RAISE)) = []) :
    (lastByOrder a as).type ≠ ActionType.RAISE := by
  intro hty
  have hmem := lastByOrder_mem a as
  have hnone := List.filter_eq_nil_iff.mp h _ hmem
  simp [hty] at hnone

/-- C3 counterexample: in the recordable heads-up sequence
`[BB fold, BTN raise 3]` the folds have reduced the non-folded seat count
to one — clause (c) of the claim holds — yet the street is reported
incomplete because the chronologically last action is an open raise, a
guard the claim's "exactly when (a) or (b) or (c)" omits. -/
theorem preflop_completion_claim_gap :
    preflopCompleteClaim exHeadsUpFoldThenRaise 2 = true ∧
    isStreetComplete exHeadsUpFoldThenRaise Street.preflop 2 = false :=
  ⟨by decide, by decide⟩

/-- C3 amended: with at least one preflop raise recorded, the street is
complete exactly when clause (a), (b) or (c) of the claim holds AND the
chronologically last preflop action is not a raise-kind action with a
determinate (non-sentinel) size; stated for every action list (with no
preflop action or no preflop raise both sides are false). -/
theorem preflop_completion_amended :
    ∀ (actions : List Action) (tableSize : ℤ),
      isStreetComplete actions Street.preflop tableSize =
        (!(lastPreflopActionIsOpenRaise actions) &&
          preflopCompleteClaim actions tableSize) := by
  intro actions t
  cases hcsa : actions.filter (fun a => decide (a.street = Street.preflop)) with
  | nil => simp only [isStreetComplete, lastPreflopActionIsOpenRaise, preflopCompleteClaim,
      hcsa, Bool.not_false, Bool.true_and]
  | cons a as =>
    simp only [isStreetComplete, lastPreflopActionIsOpenRaise, preflopCompleteClaim, hcsa]
    cases hguard : (decide ((lastByOrder a as).type = ActionType.RAISE) &&
        !(decide ((lastByOrder a as).sizeBb = some (-1)))) with
    | true => simp [hguard]
    | false =>
      simp only [hguard, Bool.not_false, Bool.true_and, Bool.false_eq_true, if_false,
        if_pos rfl]
      cases hsr : (a :: as).filter (fun x => decide (x.type = ActionType.RAISE)) with
      | nil => rfl
      | cons r rs =>
        simp only
        cases hcall : decide ((lastByOrder a as).type = ActionType.CALL) with
        | false => simp [hcall]
        | true =>
          cases rs with
          | nil => simp [hcall]
          | cons r2 rs2 =>
            have h2 : 1 ≤ (r2 :: rs2).length := by simp
            simp [hcall, h2]

/-- C4: for every postflop street, completion holds exactly as the claim
states: with no raise on the street, when the count of recorded checks
reaches the active-seat count; with a raise, when every active seat other
than the last raiser acted strictly after the last raise (or explicitly
folded) and the last action is not a raise-kind action whose size differs
from the all-in sentinel. -/
theorem postflop_completion_matches_claim :
    ∀ (actions : List Action) (st : Street) (tableSize : ℤ), st ≠ Street.preflop →
      isStreetComplete actions st tableSize = postflopCompleteClaim actions st tableSize := by
  intro actions st t hst
  cases hcsa : actions.filter (fun a => decide (a.street = st)) with
  | nil => simp only [isStreetComplete, postflopCompleteClaim, hcsa]
  | cons a as =>
    simp only [isStreetComplete, postflopCompleteClaim, hcsa]
    cases hguard : (decide ((lastByOrder a as).type = ActionType.RAISE) &&
        !(decide ((lastByOrder a as).sizeBb = some (-1)))) with
    | true =>
      have h := hguard
      rw [Bool.and_eq_true] at h
      obtain ⟨hty, hsz⟩ := h
      rw [Bool.not_eq_true'] at hsz
      cases hsr : (a :: as).filter (fun x => decide (x.type = ActionType.RAISE)) with
      | nil =>
        exact absurd (of_decide_eq_true hty) (lastByOrder_not_raise a as hsr)
      | cons r rs =>
        simp [hguard, hty, hsz]
    | false =>
      simp only [hguard, Bool.false_eq_true, if_false, if_neg hst]

/-- C4 witness: the flop of a raised 6-max pot checked around by both
remaining seats is complete, via the theorem applied at a concrete input. -/
theorem postflop_completion_witness :
    isStreetComplete exFlopChecks Street.flop 6 =
      postflopCompleteClaim exFlopChecks Street.flop 6 ∧
    isStreetComplete exFlopChecks Street.flop 6 = true :=
  ⟨postflop_completion_matches_claim exFlopChecks Street.flop 6 (by decide), by decide⟩

/-- C5 counterexample: with actions `[CO raise 3 (preflop), UTG check
(flop)]` at 6-max, UTG has a recorded action on a street, so by the claim
UTG is not an implicit fold — yet the code, which only consults preflop
actions, reports `[UTG, HJ]` while the claim's reading yields `[HJ]`. -/
theorem implicit_folds_ignore_other_streets :
    implicitlyFoldedPositions exImplicitFoldCross 6 Street.preflop =
      [Position.UTG, Position.HJ] ∧
    implicitFoldsClaim exImplicitFoldCross 6 = [Position.HJ] ∧
    ([Position.UTG, Position.HJ] : List Position) ≠ [Position.HJ] :=
  ⟨by decide, by decide, by decide⟩

/-- C5 amended: the implicit folds are exactly the seats preceding the
earliest raiser in preflop order with no recorded *preflop* action; on the
spec's example `[CO raise 3, BTN call]` they are `[UTG, HJ]`, and those
seats are excluded from `availablePositions`. -/
theorem implicit_folds_amended :
    (∀ (actions : List Action) (tableSize : ℤ),
      implicitlyFoldedPositions actions tableSize Street.preflop =
        implicitFoldsAmendedClaim actions tableSize) ∧
    implicitlyFoldedPositions exImplicitFold 6 Street.preflop =
      [Position.UTG, Position.HJ] ∧
    availablePositions exImplicitFold 6 Street.preflop =
      [Position.CO, Position.BTN, Position.SB, Position.BB] := by
  refine ⟨?_, by decide, by decide⟩
  intro actions t
  rfl

theorem filter_le_split (actions : List Action) (Q : Action → Bool) (k : ℤ) :
    (actions.filter (fun x => Q x && decide (x.order ≤ k))).length =
      (actions.filter (fun x => Q x && decide (x.order < k))).length +
      (actions.filter (fun x => Q x && decide (x.order = k))).length := by
  induction actions with
  | nil => rfl
  | cons x xs ih =>
    simp only [List.filter_cons]
    by_cases hQ : Q x = true
    · rcases lt_trichotomy x.order k with h | h | h
      · have d1 : decide (x.order ≤ k) = true := by simp [le_of_lt h]
        have d2 : decide (x.order < k) = true := by simp [h]
        have d3 : decide (x.order = k) = false := by simp [ne_of_lt h]
        simp [hQ, d1, d2, d3, ih]
        omega
      · have d1 : decide (x.order ≤ k) = true := by simp [le_of_eq h]
        have d2 : decide (x.order < k) = false := by simp [h]
        have d3 : decide (x.order = k) = true := by simp [h]
        simp [hQ, d1, d2, d3, ih]
        omega
      · have d1 : decide (x.order ≤ k) = false := by simp; omega
        have d2 : decide (x.order < k) = false := by simp; omega
        have d3 : decide (x.order = k) = false := by simp; omega
        simp [hQ, d1, d2, d3, ih]
    · have hQf : Q x = false := by revert hQ; cases Q x <;> simp
      simp [hQf, ih]

theorem filter_order_eq_singleton (l : List Action) (a : Action) (ha : a ∈ l)
    (hp : l.Pairwise (fun x y => x.order ≠ y.order)) :
    l.filter (fun b => decide (b.order = a.order)) = [a] := by
  induction l with
  | nil => cases ha
  | cons x xs ih =>
    rcases List.pairwise_cons.mp hp with ⟨hx, hxs⟩
    rcases List.mem_cons.mp ha with rfl | hmem
    · have hnil : xs.filter (fun b => decide (b.order = a.order)) = [] := by
        apply List.filter_eq_nil_iff.mpr
        intro b hb
        simp only [decide_eq_true_eq]
        exact fun hEq => (hx b hb) hEq.symm
      simp [List.filter_cons, hnil]
    · have hne : x.order ≠ a.order := hx a hmem
      simp only [List.filter_cons]
      rw [if_neg (by simp [hne])]
      exact ih hmem hxs

theorem filter_street_raise_order_singleton (actions : List Action) (a : Action)
    (ha : a ∈ actions) (hp : actions.Pairwise (fun x y => x.order ≠ y.order))
    (hty : a.type = ActionType.RAISE) :
    (actions.filter (fun x => (decide (x.street = a.street) &&
        decide (x.type = ActionType.RAISE)) && decide (x.order = a.order))).length = 1 := by
  have h1 : actions.filter (fun x => (decide (x.street = a.street) &&
      decide (x.type = ActionType.RAISE)) && decide (x.order = a.order)) =
      (actions.filter (fun x => decide (x.order = a.order))).filter
        (fun x => decide (x.street = a.street) && decide (x.type = ActionType.RAISE)) := by
    rw [List.filter_filter]
  rw [h1, filter_order_eq_singleton actions a ha hp]
  simp [hty]

theorem raiseCount_eq_priorRaises_succ (actions : List Action) (a : Action)
    (ha : a ∈ actions) (hp : actions.Pairwise (fun x y => x.order ≠ y.order))
    (hty : a.type = ActionType.RAISE) :
    ((actions.filter (fun x => decide (x.street = a.street) &&
        decide (x.order ≤ a.order))).filter
      (fun x => decide (x.type = ActionType.RAISE))).length =
    (actions.filter (fun x => decide (x.street = a.street) &&
      decide (x.type = ActionType.RAISE) && decide (x.order < a.order))).length + 1 := by
  rw [List.filter_filter]
  have hcongr : actions.filter (fun x => decide (x.type = ActionType.RAISE) &&
      (decide (x.street = a.street) && decide (x.order ≤ a.order))) =
      actions.filter (fun x => (decide (x.street = a.street) &&
        decide (x.type = ActionType.RAISE)) && decide (x.order ≤ a.order)) := by
    apply List.filter_congr
    intro x _
    cases decide (x.street = a.street) <;> cases decide (x.order ≤ a.order) <;>
      cases decide (x.type = ActionType.RAISE) <;> rfl
  rw [hcongr,
    filter_le_split actions
      (fun x => decide (x.street = a.street) && decide (x.type = ActionType.RAISE)) a.order,
    filter_street_raise_order_singleton actions a ha hp hty]

theorem raise_count_combined (action : Action) (allActions : List Action) :
    ((allActions.filter (fun x => decide (x.street = action.street) &&
        decide (x.order ≤ action.order))).filter
      (fun x => decide (x.type = ActionType.RAISE))).length =
    sameStreetRaisesUpTo action allActions := by
  unfold sameStreetRaisesUpTo
  rw [List.filter_filter]
  apply congrArg List.length
  apply List.filter_congr
  intro x _
  cases decide (x.street = action.street) <;> cases decide (x.order ≤ action.order) <;>
    cases decide (x.type = ActionType.RAISE) <;> rfl

/-- C6 counterexample: the editor history append/append/delete/append
leaves two same-street raise-kind actions sharing `order = 1`; on the
surviving HJ raise the editor's display labeler says "open" while the
export labeler, which counts raises with order less than or equal to the
action's own (two of them here), says "3bet" — the two labelers disagree,
and neither count matches the claim's mapping for both. -/
theorem action_labelers_disagree_on_dup_orders :
    (⟨1, .preflop, .HJ, .RAISE, some 9⟩ : Action) ∈ exDupOrders ∧
    getActionDisplayLabel ⟨1, .preflop, .HJ, .RAISE, some 9⟩ exDupOrders = "open" ∧
    getRaiseLabel ⟨1, .preflop, .HJ, .RAISE, some 9⟩ exDupOrders = "3bet" ∧
    ("open" : String) ≠ "3bet" :=
  ⟨by decide, by decide, by decide, by decide⟩

/-- C6 amended: the export labeler follows the claim's n-indexed mapping on
every action list; and whenever the action list's order keys are pairwise
distinct (the invariant append-only editing maintains), the editor's
display labeler agrees with the export labeler on every action in the
list.  Three sequential preflop raises label open/3bet/4bet under both
labelers regardless of other streets' interleaved actions. -/
theorem action_labeling_amended :
    (∀ (action : Action) (allActions : List Action),
      getRaiseLabel action allActions =
        (match action.type with
         | ActionType.RAISE =>
             claimRaiseLabelMap action.street (sameStreetRaisesUpTo action allActions)
         | t => actionTypeLower t)) ∧
    (∀ (actions : List Action), actions.Pairwise (fun x y => x.order ≠ y.order) →
      ∀ a ∈ actions, getActionDisplayLabel a actions = getRaiseLabel a actions) ∧
    (getRaiseLabel ⟨0, .preflop, .UTG, .RAISE, some 3⟩ exThreeRaises = "open" ∧
      getRaiseLabel ⟨2, .preflop, .CO, .RAISE, some 9⟩ exThreeRaises = "3bet" ∧
      getRaiseLabel ⟨4, .preflop, .UTG, .RAISE, some 21⟩ exThreeRaises = "4bet" ∧
      getActionDisplayLabel ⟨0, .preflop, .UTG, .RAISE, some 3⟩ exThreeRaises = "open" ∧
      getActionDisplayLabel ⟨2, .preflop, .CO, .RAISE, some 9⟩ exThreeRaises = "3bet" ∧
      getActionDisplayLabel ⟨4, .preflop, .UTG, .RAISE, some 21⟩ exThreeRaises = "4bet") := by
  refine ⟨?_, ?_, by decide, by decide, by decide, by decide, by decide, by decide⟩
  · intro action allActions
    cases hty : action.type with
    | RAISE =>
      simp only [getRaiseLabel, hty]
      rw [raise_count_combined]
      cases hst : action.street with
      | preflop =>
        rcases hn : sameStreetRaisesUpTo action allActions with _ | _ | _ | _ | _ | m <;>
          rfl
      | flop => rfl
      | turn => rfl
      | river => rfl
    | FOLD => simp [getRaiseLabel, hty]
    | CHECK => simp [getRaiseLabel, hty]
    | CALL => simp [getRaiseLabel, hty]
    | BET => simp [getRaiseLabel, hty]
    | ALLIN => simp [getRaiseLabel, hty]
  · intro actions hp a ha
    cases hty : a.type with
    | RAISE =>
      simp only [getActionDisplayLabel, getRaiseLabel, hty]
      rw [raiseCount_eq_priorRaises_succ actions a ha hp hty]
      generalize (actions.filter (fun x => decide (x.street = a.street) &&
        decide (x.type = ActionType.RAISE) && decide (x.order < a.order))).length = n
      cases a.street with
      | preflop =>
        rcases n with _ | _ | _ | _ | k
        · rfl
        · rfl
        · rfl
        · rfl
        · rfl
      | flop => rcases n with _ | k <;> rfl
      | turn => rcases n with _ | k <;> rfl
      | river => rcases n with _ | k <;> rfl
    | FOLD => simp [getActionDisplayLabel, getRaiseLabel, hty]
    | CHECK => simp [getActionDisplayLabel, getRaiseLabel, hty]
    | CALL => simp [getActionDisplayLabel, getRaiseLabel, hty]
    | BET => simp [getActionDisplayLabel, getRaiseLabel, hty]
    | ALLIN => simp [getActionDisplayLabel, getRaiseLabel, hty]

/-- C6 witness: the labeler-agreement part of the amended theorem applied
to the three-raise example list, whose orders are pairwise distinct. -/
theorem action_labeling_amended_witness :
    getActionDisplayLabel ⟨4, .preflop, .UTG, .RAISE, some 21⟩ exThreeRaises =
      getRaiseLabel ⟨4, .preflop, .UTG, .RAISE, some 21⟩ exThreeRaises :=
  action_labeling_amended.2.1 exThreeRaises (by decide) _ (by decide)

/-- C7: the recorded pot-fraction chip amount `Math.round(pot * r)` is the
integer n with n - 1/2 <= p*r < n + 1/2 (nearest integer, exact halves
rounding up: p*r = n + 1/2 yields n + 1, never the even neighbour); in
particular pot 7 with the 2/3 preset (0.67) resolves to 5 BB and pot 10
with ratio 1/4 resolves to 3 BB (2.5 rounds up, not to the even 2). -/
theorem pot_ratio_rounding :
    (∀ p r : ℚ, (potRatioSizeBb p r : ℚ) - 1/2 ≤ p * r ∧
      p * r < (potRatioSizeBb p r : ℚ) + 1/2) ∧
    (∀ n : ℤ, jsRound ((n : ℚ) + 1/2) = n + 1) ∧
    potRatioSizeBb 7 (67/100) = 5 ∧
    potRatioSizeBb 10 (1/4) = 3 ∧ (3 : ℤ) ≠ 2 := by
  refine ⟨?_, ?_, ?_, ?_, by decide⟩
  · intro p r
    unfold potRatioSizeBb jsRound
    constructor
    · have h := Int.floor_le (p * r + 1/2)
      linarith
    · have h := Int.lt_floor_add_one (p * r + 1/2)
      push_cast at h ⊢
      linarith
  · intro n
    unfold jsRound
    rw [show ((n : ℚ) + 1/2 + 1/2) = ((n + 1 : ℤ) : ℚ) by push_cast; ring]
    exact Int.floor_intCast _
  · unfold potRatioSizeBb jsRound
    rw [show ((7 : ℚ) * (67/100) + 1/2) = 519/100 by norm_num]
    rw [Int.floor_eq_iff]
    norm_num
  · unfold potRatioSizeBb jsRound
    rw [show ((10 : ℚ) * (1/4) + 1/2) = ((3 : ℤ) : ℚ) by norm_num]
    exact Int.floor_intCast _

/-- C8 counterexample: after the editor history append, append, delete
first, append, the newly appended action receives `order = actions.length
= 1`, equal to (not greater than) the surviving action's order: the hand
holds two actions with order 1 and its orders are no longer strictly
increasing. -/
theorem appended_order_duplicates_after_removal :
    (runEditorOps exEditorOps).map (fun a => a.order) = [1, 1] ∧
    ¬ ((runEditorOps exEditorOps).Pairwise (fun a b => a.order < b.order)) :=
  ⟨by decide, by decide⟩

theorem append_only_invariant (ops : List EditorOp) :
    ∀ init : List Action, (∀ op ∈ ops, op.isAppend = true) →
      (∀ a ∈ init, a.order < (init.length : ℤ)) →
      init.Pairwise (fun a b => a.order < b.order) →
      (∀ a ∈ ops.foldl applyEditorOp init,
        a.order < ((ops.foldl applyEditorOp init).length : ℤ)) ∧
      (ops.foldl applyEditorOp init).Pairwise (fun a b => a.order < b.order) := by
  induction ops with
  | nil => exact fun init _ h1 h2 => ⟨h1, h2⟩
  | cons op ops ih =>
    intro init h h1 h2
    cases op with
    | removeAt i =>
      exact absurd (h _ (List.mem_cons_self _ _)) (by simp [EditorOp.isAppend])
    | append st p ty s =>
      simp only [List.foldl_cons, applyEditorOp]
      apply ih _ (fun o ho => h o (List.mem_cons_of_mem _ ho))
      · intro a ha
        rcases List.mem_append.mp ha with ha | ha
        · have := h1 a ha
          simp only [List.length_append, List.length_singleton]
          push_cast
          omega
        · simp only [List.mem_singleton] at ha
          subst ha
          simp only [List.length_append, List.length_singleton]
          push_cast
          omega
      · rw [List.pairwise_append]
        refine ⟨h2, by simp, ?_⟩
        intro a ha b hb
        simp only [List.mem_singleton] at hb
        subst hb
        exact h1 a ha

/-- C8 amended: in append-only editor histories every appended action's
order strictly exceeds every order already present (orders are exactly
0,1,2,... so they are strictly increasing and the next append, assigned
`order = actions.length`, is strictly above all of them); a removal of a
non-final action breaks this, as the counterexample shows, because the
next append reuses `actions.length` which then equals a surviving order. -/
theorem order_keys_append_only (ops : List EditorOp)
    (h : ∀ op ∈ ops, op.isAppend = true) :
    (runEditorOps ops).Pairwise (fun a b => a.order < b.order) ∧
    ∀ a ∈ runEditorOps ops, a.order < ((runEditorOps ops).length : ℤ) := by
  have key := append_only_invariant ops [] h (by simp) (by simp)
  exact ⟨key.2, key.1⟩

/-- C8 witness: the amended theorem applied to a concrete append-only
history of three actions. -/
theorem order_keys_append_only_witness :
    (runEditorOps exAppendOnlyOps).Pairwise (fun a b => a.order < b.order) ∧
    ∀ a ∈ runEditorOps exAppendOnlyOps,
      a.order < ((runEditorOps exAppendOnlyOps).length : ℤ) :=
  order_keys_append_only exAppendOnlyOps (by decide)

/-- C9 counterexample: at table size 10 the preflop and postflop action
order lookups both yield the empty list — "nothing" — while every in-range
table size yields a non-empty configuration, so the out-of-range result is
not any fixed default size's configuration. -/
theorem order_tables_out_of_range_empty :
    preflopOrderOf 10 = [] ∧ postflopOrderOf 10 = [] ∧
    (([2,3,4,5,6,7,8,9] : List ℤ).all (fun s => !((preflopOrderOf s).isEmpty))) = true ∧
    (([2,3,4,5,6,7,8,9] : List ℤ).all (fun s => !((postflopOrderOf s).isEmpty))) = true :=
  ⟨by decide, by decide, by decide, by decide⟩

theorem PREFLOP_ACTION_ORDER_out_of_range (t : ℤ) (h : t < 2 ∨ 9 < t) :
    PREFLOP_ACTION_ORDER t = none := by
  unfold PREFLOP_ACTION_ORDER
  split_ifs <;> first | rfl | (exfalso; omega)

theorem POSTFLOP_ACTION_ORDER_out_of_range (t : ℤ) (h : t < 2 ∨ 9 < t) :
    POSTFLOP_ACTION_ORDER t = none := by
  unfold POSTFLOP_ACTION_ORDER
  split_ifs <;> first | rfl | (exfalso; omega)

theorem POSITIONS_BY_TABLE_SIZE_out_of_range (t : ℤ) (h : t < 2 ∨ 9 < t) :
    POSITIONS_BY_TABLE_SIZE t = none := by
  unfold POSITIONS_BY_TABLE_SIZE
  split_ifs <;> first | rfl | (exfalso; omega)

/-- C9 amended: for every table size outside 2-9, the new-hand position-set
lookup (`POSITIONS_BY_TABLE_SIZE[...] || POSITIONS_BY_TABLE_SIZE[6]`)
falls back to the fixed 6-max configuration, but the preflop and postflop
action-order lookups (`... || []`) fall back to the empty list — they
yield nothing rather than a default size's configuration. -/
theorem out_of_range_table_size_fallbacks (t : ℤ) (h : t < 2 ∨ 9 < t) :
    preflopOrderOf t = [] ∧ postflopOrderOf t = [] ∧
    newHandPositions t =
      [Position.UTG, Position.HJ, Position.CO, Position.BTN, Position.SB, Position.BB] := by
  refine ⟨?_, ?_, ?_⟩
  · rw [preflopOrderOf, PREFLOP_ACTION_ORDER_out_of_range t h]
    rfl
  · rw [postflopOrderOf, POSTFLOP_ACTION_ORDER_out_of_range t h]
    rfl
  · rw [newHandPositions, POSITIONS_BY_TABLE_SIZE_out_of_range t h]
    decide

/-- C9 witness: the amended theorem applied at table size 10. -/
theorem out_of_range_table_size_witness :
    preflopOrderOf 10 = [] ∧ postflopOrderOf 10 = [] ∧
    newHandPositions 10 =
      [Position.UTG, Position.HJ, Position.CO, Position.BTN, Position.SB, Position.BB] :=
  out_of_range_table_size_fallbacks 10 (by omega)

theorem qmax_nonneg_right {a b : ℚ} (h : 0 ≤ b) : 0 ≤ qmax a b := by
  unfold qmax
  split
  · exact h
  · linarith [not_le.mp (by assumption : ¬ a ≤ b)]

theorem maxBet_nonneg (b : Bets) : 0 ≤ maxBet b :=
  qmax_nonneg_right (qmax_nonneg_right (qmax_nonneg_right (qmax_nonneg_right
    (qmax_nonneg_right (qmax_nonneg_right (qmax_nonneg_right (qmax_nonneg_right le_rfl)))))))

theorem set_get_nonneg (b : Bets) (p : Position) (v : ℚ)
    (hb : ∀ q, 0 ≤ b.get q) (hv : 0 ≤ v) : ∀ q, 0 ≤ (b.set p v).get q := by
  intro q
  cases p <;> cases q <;>
    simp only [Bets.set, Bets.get] <;>
    first
      | exact hv
      | exact hb Position.UTG
      | exact hb Position.UTG1
      | exact hb Position.LJ
      | exact hb Position.HJ
      | exact hb Position.CO
      | exact hb Position.BTN
      | exact hb Position.SB
      | exact hb Position.BB

theorem applyPotAction_nonneg (b : Bets) (a : Action)
    (hb : ∀ q, 0 ≤ b.get q)
    (ha : ∀ s : ℚ, a.sizeBb = some s → 0 ≤ s ∨ s = -1) :
    ∀ q, 0 ≤ (applyPotAction b a).get q := by
  unfold applyPotAction
  cases hty : a.type with
  | RAISE =>
    cases hsz : a.sizeBb with
    | none => exact hb
    | some s =>
      apply set_get_nonneg _ _ _ hb
      split
      · norm_num
      · rcases ha s hsz with hpos | hneg
        · exact hpos
        · exact absurd hneg (by assumption)
  | FOLD => exact hb
  | CHECK => exact hb
  | CALL => exact set_get_nonneg _ _ _ hb (maxBet_nonneg b)
  | BET => exact hb
  | ALLIN => exact hb

theorem foldl_applyPotAction_nonneg (l : List Action) (b : Bets)
    (hb : ∀ q, 0 ≤ b.get q)
    (hl : ∀ a ∈ l, ∀ s : ℚ, a.sizeBb = some s → 0 ≤ s ∨ s = -1) :
    ∀ q, 0 ≤ (l.foldl applyPotAction b).get q := by
  induction l generalizing b with
  | nil => exact hb
  | cons a l ih =>
    simp only [List.foldl_cons]
    exact ih _ (applyPotAction_nonneg b a hb (hl a (List.mem_cons_self _ _)))
      (fun x hx => hl x (List.mem_cons_of_mem _ hx))

theorem sumBets_nonneg (b : Bets) (hb : ∀ q, 0 ≤ b.get q) : 0 ≤ sumBets b := by
  have h1 : 0 ≤ b.utg := hb Position.UTG
  have h2 : 0 ≤ b.utg1 := hb Position.UTG1
  have h3 : 0 ≤ b.lj := hb Position.LJ
  have h4 : 0 ≤ b.hj := hb Position.HJ
  have h5 : 0 ≤ b.co := hb Position.CO
  have h6 : 0 ≤ b.btn := hb Position.BTN
  have h7 : 0 ≤ b.sb := hb Position.SB
  have h8 : 0 ≤ b.bb := hb Position.BB
  unfold sumBets
  linarith

theorem sb_ratio_nonneg (blind : BlindLevel) : 0 ≤ getSBSize blind / getBBSize blind := by
  cases blind <;> norm_num [getSBSize, getBBSize]

/-- C10: with every recorded size non-negative or the -1 sentinel, the pot
entering each street is monotonically non-decreasing along the canonical
street order, because each elapsed street contributes the sum of a
non-negative per-seat map. -/
theorem potSize_monotone (actions : List Action) (tableSize : ℤ) (blind : BlindLevel)
    (h : ∀ a ∈ actions, ∀ s : ℚ, a.sizeBb = some s → 0 ≤ s ∨ s = -1) :
    potSize actions Street.preflop tableSize blind ≤
      potSize actions Street.flop tableSize blind ∧
    potSize actions Street.flop tableSize blind ≤
      potSize actions Street.turn tableSize blind ∧
    potSize actions Street.turn tableSize blind ≤
      potSize actions Street.river tableSize blind := by
  have hfilter : ∀ st : Street, ∀ a ∈ actions.filter (fun a => decide (a.street = st)),
      ∀ s : ℚ, a.sizeBb = some s → 0 ≤ s ∨ s = -1 :=
    fun st a ha => h a (List.mem_of_mem_filter ha)
  have hzero : ∀ q, 0 ≤ (({} : Bets).get q) := by
    intro q
    cases q <;> norm_num [Bets.get]
  have hseed : ∀ q, 0 ≤ ((Bets.mk 0 0 0 0 0 0
      (if (decide (tableSize ≥ 3) : Bool) then getSBSize blind / getBBSize blind else 0)
      1).get q) := by
    intro q
    cases q <;> simp only [Bets.get] <;>
      first
        | (split <;> first | exact sb_ratio_nonneg blind | norm_num)
        | norm_num
  refine ⟨?_, ?_, ?_⟩
  all_goals
    simp only [potSize, streetsOrder, streetIdx, List.take, List.foldl]
  · have := sumBets_nonneg _
      (foldl_applyPotAction_nonneg _ _ hseed (hfilter Street.preflop))
    linarith
  · have := sumBets_nonneg _
      (foldl_applyPotAction_nonneg _ _ hzero (hfilter Street.flop))
    linarith
  · have := sumBets_nonneg _
      (foldl_applyPotAction_nonneg _ _ hzero (hfilter Street.turn))
    linarith

/-- C10 witness: the monotonicity theorem applied to the spec's 6-max
example hand, whose sizes are all non-negative. -/
theorem potSize_monotone_witness :
    potSize exPotActions Street.preflop 6 BlindLevel.b05_1 ≤
      potSize exPotActions Street.flop 6 BlindLevel.b05_1 ∧
    potSize exPotActions Street.flop 6 BlindLevel.b05_1 ≤
      potSize exPotActions Street.turn 6 BlindLevel.b05_1 ∧
    potSize exPotActions Street.turn 6 BlindLevel.b05_1 ≤
      potSize exPotActions Street.river 6 BlindLevel.b05_1 := by
  apply potSize_monotone
  intro a ha s hs
  fin_cases ha <;>
    first
      | (simp at hs; subst hs; norm_num)
      | simp at hs

end HandRecord
